import Mathlib

/-!
WiseVault: ledger, accounts, loans and the ownership-scoped directory

A shallow embedding of `src/WiseVault.cpp` (classes `TransactionRecord`,
`Account`, `Transaction`, `Loan`, `Manager`) and theorems about it.

Modelling conventions.

* `double` amounts and balances are exact rationals (`ℚ`); rounding, infinities
  and NaN of IEEE arithmetic are outside the model.
* `int` identifiers and counters are `Int`.  Signed overflow is undefined
  behaviour in C++, so the model describes executions in which the counters
  stay inside the `int` range.
* `std::vector` is `List`; `push_back` is `xs ++ [x]`; a range-`for` loop is a
  structural recursion over the list.
* `time(nullptr)` is a clock reading passed in by the caller (`now`).
* Text written to `cout` is not part of the state and is not modelled.
* A C++ member function that mutates `*this` becomes a function returning the
  new value of the object.
-/

namespace WiseVault

/-! ## TransactionRecord -/

/-- Class `TransactionRecord` (lines 14-30). -/
structure TransactionRecord where
  accountNumber : Int
  type : String
  amount : ℚ
  timestamp : Nat
  deriving DecidableEq, Repr

/-! ## Account -/

/-- Class `Account` (lines 48-109). -/
structure Account where
  accountNumber : Int
  name : String
  balance : ℚ
  accountType : String
  ownerUsername : String
  transactionLog : List TransactionRecord
  deriving DecidableEq, Repr

namespace Account

/-- Constructor `Account(accNo, accName, bal, type, owner)` (lines 60-61): the
log starts empty. -/
def new (accNo : Int) (accName : String) (bal : ℚ) (type owner : String) : Account :=
  { accountNumber := accNo, name := accName, balance := bal, accountType := type,
    ownerUsername := owner, transactionLog := [] }

/-- `Account::addTransactionRecord` (lines 63-65). -/
def addTransactionRecord (acc : Account) (record : TransactionRecord) : Account :=
  { acc with transactionLog := acc.transactionLog ++ [record] }

/-- `Account::deposit` (lines 75-78): `balance += amount`. -/
def deposit (acc : Account) (amount : ℚ) : Account :=
  { acc with balance := acc.balance + amount }

/-- `Account::withdraw` (lines 80-87). -/
def withdraw (acc : Account) (amount : ℚ) : Account :=
  if amount > acc.balance then acc
  else { acc with balance := acc.balance - amount }

/-- `Account::getAccountNumber` (line 100). -/
def getAccountNumber (acc : Account) : Int := acc.accountNumber

/-- `Account::getBalance` (line 101). -/
def getBalance (acc : Account) : ℚ := acc.balance

/-- `Account::getOwnerUsername` (line 102). -/
def getOwnerUsername (acc : Account) : String := acc.ownerUsername

/-- `Account::modifyAccount` (lines 104-108). -/
def modifyAccount (acc : Account) (newName newType : String) : Account :=
  { acc with name := newName, accountType := newType }

end Account

/-! ## Loan -/

/-- Class `Loan` (lines 152-196); `tenure` is in months, `balance` is the
outstanding balance. -/
structure Loan where
  loanID : Int
  borrowerName : String
  borrowerUsername : String
  principal : ℚ
  rate : ℚ
  tenure : Int
  emi : ℚ
  balance : ℚ
  deriving DecidableEq, Repr

namespace Loan

/-- Local `monthlyRate` of the constructor (line 169): `(rate / 12) / 100`. -/
def monthlyRate (r : ℚ) : ℚ := (r / 12) / 100

/-- Denominator of the EMI quotient (line 170):
`pow(1 + monthlyRate, tenure) - 1`, with `tenure` in months. -/
def emiDenominator (r : ℚ) (tenure : Int) : ℚ := (1 + monthlyRate r) ^ tenure - 1

/-- EMI expression of the constructor (line 170).  The quotient is the field
division of `ℚ`; where the denominator is zero the C++ `double` quotient is
not finite and has no counterpart here. -/
def computeEmi (p r : ℚ) (tenure : Int) : ℚ :=
  (p * monthlyRate r * (1 + monthlyRate r) ^ tenure) / emiDenominator r tenure

/-- Constructor `Loan(id, name, username, p, t, r)` (lines 166-172): `t` is in
years, the stored tenure is `t * 12` months. -/
def new (id : Int) (name username : String) (p : ℚ) (t : Int) (r : ℚ) : Loan :=
  { loanID := id, borrowerName := name, borrowerUsername := username,
    principal := p, rate := r, tenure := t * 12,
    emi := computeEmi p r (t * 12),
    balance := computeEmi p r (t * 12) * ((t * 12 : Int) : ℚ) }

/-- `Loan::getLoanID` (line 184). -/
def getLoanID (loan : Loan) : Int := loan.loanID

/-- `Loan::getBorrowerUsername` (line 185). -/
def getBorrowerUsername (loan : Loan) : String := loan.borrowerUsername

/-- `Loan::makePayment` (lines 187-195). -/
def makePayment (loan : Loan) (amount : ℚ) : Loan :=
  if amount ≥ loan.balance then { loan with balance := 0 }
  else { loan with balance := loan.balance - amount }

end Loan

/-! ## Manager -/

/-- Class `Manager` (lines 201-334): the data members. -/
structure Manager where
  accounts : List Account
  loans : List Loan
  nextAccNo : Int
  nextLoanID : Int
  transactions : List TransactionRecord
  deriving DecidableEq, Repr

namespace Manager

/-- A default-constructed `Manager`: the in-class initialisers of lines
204-208. -/
def fresh : Manager :=
  { accounts := [], loans := [], nextAccNo := 1001, nextLoanID := 1, transactions := [] }

/-- `Manager::recordTransaction` (lines 209-212). -/
def recordTransaction (m : Manager) (accNo : Int) (type : String) (amount : ℚ)
    (now : Nat) : Manager :=
  { m with transactions := m.transactions ++ [TransactionRecord.mk accNo type amount now] }

/-- `Manager::createAccount` (lines 215-219). -/
def createAccount (m : Manager) (name : String) (balance : ℚ) (type ownerUsername : String) :
    Manager :=
  { m with
    accounts := m.accounts ++ [Account.new m.nextAccNo name balance type ownerUsername],
    nextAccNo := m.nextAccNo + 1 }

/-- Loop of `Manager::getUserAccounts` (lines 224-228), `result` being the
vector built so far. -/
def getUserAccountsLoop (username : String) : List Account → List Account → List Account
  | [], result => result
  | acc :: rest, result =>
    if acc.getOwnerUsername = username then getUserAccountsLoop username rest (result ++ [acc])
    else getUserAccountsLoop username rest result

/-- `Manager::getUserAccounts` (lines 221-230). -/
def getUserAccounts (m : Manager) (username : String) : List Account :=
  getUserAccountsLoop username m.accounts []

/-- Loop of `Manager::findAccount` (lines 234-242): the first element that
passes both tests, or `none` for `nullptr`. -/
def findAccountLoop (accNo : Int) (username : String) (isManager : Bool) :
    List Account → Option Account
  | [] => none
  | acc :: rest =>
    if acc.getAccountNumber = accNo then
      if isManager = true ∨ acc.getOwnerUsername = username then some acc
      else findAccountLoop accNo username isManager rest
    else findAccountLoop accNo username isManager rest

/-- `Manager::findAccount` (lines 232-243).  The C++ function returns a pointer
into `accounts`; the model returns the account pointed to. -/
def findAccount (m : Manager) (accNo : Int) (username : String) (isManager : Bool) :
    Option Account :=
  findAccountLoop accNo username isManager m.accounts

/-- Loop of `Manager::closeAccount` (lines 247-255): erase the first element
that passes the test and stop. -/
def closeAccountLoop (accNo : Int) (username : String) (isManager : Bool) :
    List Account → List Account
  | [] => []
  | acc :: rest =>
    if acc.getAccountNumber = accNo ∧ (isManager = true ∨ acc.getOwnerUsername = username) then
      rest
    else acc :: closeAccountLoop accNo username isManager rest

/-- `Manager::closeAccount` (lines 245-257). -/
def closeAccount (m : Manager) (accNo : Int) (username : String) (isManager : Bool) : Manager :=
  { m with accounts := closeAccountLoop accNo username isManager m.accounts }

/-- `Manager::applyLoan` (lines 273-277): the loan is built with the default
rate `12.0` of the `Loan` constructor. -/
def applyLoan (m : Manager) (name username : String) (principal : ℚ) (tenure : Int) : Manager :=
  { m with
    loans := m.loans ++ [Loan.new m.nextLoanID name username principal tenure 12],
    nextLoanID := m.nextLoanID + 1 }

/-- Loop of `Manager::getUserLoans` (lines 282-286). -/
def getUserLoansLoop (username : String) : List Loan → List Loan → List Loan
  | [], result => result
  | loan :: rest, result =>
    if loan.getBorrowerUsername = username then getUserLoansLoop username rest (result ++ [loan])
    else getUserLoansLoop username rest result

/-- `Manager::getUserLoans` (lines 279-288). -/
def getUserLoans (m : Manager) (username : String) : List Loan :=
  getUserLoansLoop username m.loans []

/-- Loop of `Manager::findLoan` (lines 292-300). -/
def findLoanLoop (loanID : Int) (username : String) (isManager : Bool) :
    List Loan → Option Loan
  | [] => none
  | loan :: rest =>
    if loan.getLoanID = loanID then
      if isManager = true ∨ loan.getBorrowerUsername = username then some loan
      else findLoanLoop loanID username isManager rest
    else findLoanLoop loanID username isManager rest

/-- `Manager::findLoan` (lines 290-301). -/
def findLoan (m : Manager) (loanID : Int) (username : String) (isManager : Bool) :
    Option Loan :=
  findLoanLoop loanID username isManager m.loans

/-- `Manager::recordGlobalTransaction` (lines 317-320). -/
def recordGlobalTransaction (m : Manager) (record : TransactionRecord) : Manager :=
  { m with transactions := m.transactions ++ [record] }

end Manager

/-! ## Transaction -/

namespace Transaction

/-- `Transaction::deposit(acc, amount)` (lines 127-130). -/
def deposit (acc : Account) (amount : ℚ) (now : Nat) : Account :=
  let acc1 := acc.deposit amount
  acc1.addTransactionRecord (TransactionRecord.mk acc1.getAccountNumber "Deposit" amount now)

/-- `Transaction::withdraw(acc, amount)` (lines 132-139). -/
def withdraw (acc : Account) (amount : ℚ) (now : Nat) : Account :=
  if acc.getBalance ≥ amount then
    let acc1 := acc.withdraw amount
    acc1.addTransactionRecord (TransactionRecord.mk acc1.getAccountNumber "Withdraw" amount now)
  else acc

end Transaction

/-! ## Sequences of directory calls -/

/-- One call on the directory: the three mutating member functions and the
four lookups of `Manager`, with their arguments. -/
inductive Op where
  | createAccount (name : String) (balance : ℚ) (type ownerUsername : String)
  | closeAccount (accNo : Int) (username : String) (isManager : Bool)
  | applyLoan (name username : String) (principal : ℚ) (tenure : Int)
  | findAccount (accNo : Int) (username : String) (isManager : Bool)
  | getUserAccounts (username : String)
  | findLoan (loanID : Int) (username : String) (isManager : Bool)
  | getUserLoans (username : String)
  deriving DecidableEq, Repr

namespace Op

/-- Whether the call is a `createAccount`. -/
def isCreateAccount : Op → Bool
  | createAccount _ _ _ _ => true
  | _ => false

/-- Whether the call is an `applyLoan`. -/
def isApplyLoan : Op → Bool
  | applyLoan _ _ _ _ => true
  | _ => false

/-- Number of `createAccount` calls in a sequence. -/
def createCount (ops : List Op) : Nat := ops.countP isCreateAccount

/-- Number of `applyLoan` calls in a sequence. -/
def loanCount (ops : List Op) : Nat := ops.countP isApplyLoan

end Op

namespace Manager

/-- Effect of one call on the directory.  The lookups compute their result
from the directory and leave it as it is. -/
def step (m : Manager) : Op → Manager
  | Op.createAccount name balance type ownerUsername =>
    m.createAccount name balance type ownerUsername
  | Op.closeAccount accNo username isManager => m.closeAccount accNo username isManager
  | Op.applyLoan name username principal tenure => m.applyLoan name username principal tenure
  | Op.findAccount _ _ _ => m
  | Op.getUserAccounts _ => m
  | Op.findLoan _ _ _ => m
  | Op.getUserLoans _ => m

/-- Effect of a sequence of calls, first call first. -/
def run (m : Manager) (ops : List Op) : Manager := ops.foldl step m

/-- Number of the account that a `createAccount` call on `m` adds: the number
of the last element of `accounts` after the call. -/
def createdAccountNumber (m : Manager) (name : String) (balance : ℚ)
    (type ownerUsername : String) : Option Int :=
  (m.createAccount name balance type ownerUsername).accounts.getLast?.map
    Account.getAccountNumber

/-- ID of the loan that an `applyLoan` call on `m` adds. -/
def createdLoanID (m : Manager) (name username : String) (principal : ℚ) (tenure : Int) :
    Option Int :=
  (m.applyLoan name username principal tenure).loans.getLast?.map Loan.getLoanID

/-- Invariant of the account collection: numbers strictly increasing along the
list and all inside `[1001, nextAccNo)`. -/
def AccountsOrdered (m : Manager) : Prop :=
  (m.accounts.map Account.accountNumber).Pairwise (· < ·) ∧
  (∀ a ∈ m.accounts, 1001 ≤ a.accountNumber ∧ a.accountNumber < m.nextAccNo) ∧
  1001 ≤ m.nextAccNo

/-- Invariant of the loan collection: IDs strictly increasing along the list
and all inside `[1, nextLoanID)`. -/
def LoansOrdered (m : Manager) : Prop :=
  (m.loans.map Loan.loanID).Pairwise (· < ·) ∧
  (∀ l ∈ m.loans, 1 ≤ l.loanID ∧ l.loanID < m.nextLoanID) ∧
  1 ≤ m.nextLoanID

end Manager

/-! ## Amounts as reported -/

/-- Rounding of an exact amount to two decimals (nearest hundredth), the
precision at which the specification quotes the EMI figures. -/
def roundToCents (x : ℚ) : ℚ := ((round (x * 100) : Int) : ℚ) / 100

/-! ## Sample values -/

/-- An account opened with a negative balance, as `createAccount` accepts. -/
def overdrawnAccount : Account := Account.new 1001 "Asha" (-5) "Saving" "asha"

/-- An account with balance 100. -/
def sampleAccount : Account := Account.new 1001 "Asha" 100 "Saving" "asha"

/-- The directory after one `createAccount` call for user `asha`. -/
def sampleManager : Manager := Manager.fresh.createAccount "Asha" 100 "Saving" "asha"

/-- A loan of `100000` over one year at `12` percent, as `applyLoan` builds
it. -/
def sampleLoan : Loan := Loan.new 1 "Asha" "asha" 100000 1 12

/-- The sample loan after a payment that leaves `100` outstanding. -/
def smallLoan : Loan := sampleLoan.makePayment (sampleLoan.balance - 100)

section Transfers

/-- C1 (as stated, refuted): on an account whose balance is `-5`, a deposit of
`3` followed by a withdrawal of `3` leaves the balance at `-2`, not at `-5`,
and the log holds the Deposit record only: the withdrawal is refused because
the balance after the deposit is below the amount. -/
theorem deposit_then_withdraw_refused_on_negative_balance :
    (0 : ℚ) < 3 ∧
    overdrawnAccount.balance = -5 ∧
    (Transaction.withdraw (Transaction.deposit overdrawnAccount 3 10) 3 11).balance = -2 ∧
    (Transaction.withdraw (Transaction.deposit overdrawnAccount 3 10) 3 11).transactionLog =
      overdrawnAccount.transactionLog ++ [TransactionRecord.mk 1001 "Deposit" 3 10] := by
  refine ⟨by norm_num, ?_, ?_, ?_⟩ <;>
    simp [overdrawnAccount, Account.new, Transaction.withdraw, Transaction.deposit,
      Account.deposit, Account.withdraw, Account.addTransactionRecord, Account.getBalance,
      Account.getAccountNumber] <;> norm_num

/-- C1 (amended): for every account whose balance is non-negative and every
amount `a` (so in particular every `a > 0`), `Transaction::deposit(acc, a)` followed by
`Transaction::withdraw(acc, a)` returns the balance to its pre-deposit value,
and the log is the original log followed by exactly two records, a Deposit of
`a` and then a Withdraw of `a`; no other field changes. -/
theorem deposit_then_withdraw_roundtrip (acc : Account) (a : ℚ) (now₁ now₂ : Nat)
    (hbal : 0 ≤ acc.balance) :
    Transaction.withdraw (Transaction.deposit acc a now₁) a now₂ =
      { acc with
        transactionLog := acc.transactionLog ++
          [TransactionRecord.mk acc.accountNumber "Deposit" a now₁,
           TransactionRecord.mk acc.accountNumber "Withdraw" a now₂] } := by
  have h1 : a ≤ acc.balance + a := by linarith
  have h2 : ¬ (a > acc.balance + a) := by linarith
  simp [Transaction.withdraw, Transaction.deposit, Account.deposit, Account.withdraw,
    Account.addTransactionRecord, Account.getBalance, Account.getAccountNumber, h1, h2]

/-- Witness for `deposit_then_withdraw_roundtrip` on an account with balance
`100` and amount `30`. -/
theorem deposit_then_withdraw_roundtrip_witness :
    Transaction.withdraw (Transaction.deposit sampleAccount 30 10) 30 11 =
      { sampleAccount with
        transactionLog := sampleAccount.transactionLog ++
          [TransactionRecord.mk sampleAccount.accountNumber "Deposit" 30 10,
           TransactionRecord.mk sampleAccount.accountNumber "Withdraw" 30 11] } :=
  deposit_then_withdraw_roundtrip sampleAccount 30 10 11
    (by simp [sampleAccount, Account.new])

/-- C2: when `amount > balance`, both `Transaction::withdraw(acc, amount)` and
`Account::withdraw(amount)` leave the account exactly as it was: the balance is
unchanged and no record is appended to the log. -/
theorem withdraw_insufficient_no_change (acc : Account) (amount : ℚ) (now : Nat)
    (h : amount > acc.balance) :
    Transaction.withdraw acc amount now = acc ∧ acc.withdraw amount = acc ∧
    (Transaction.withdraw acc amount now).balance = acc.balance ∧
    (Transaction.withdraw acc amount now).transactionLog = acc.transactionLog ∧
    (acc.withdraw amount).balance = acc.balance ∧
    (acc.withdraw amount).transactionLog = acc.transactionLog := by
  have h1 : ¬ (amount ≤ acc.balance) := not_le.mpr h
  have e1 : Transaction.withdraw acc amount now = acc := by
    simp [Transaction.withdraw, Account.getBalance, h1]
  have e2 : acc.withdraw amount = acc := by
    simp [Account.withdraw, h]
  rw [e1, e2]
  exact ⟨rfl, rfl, rfl, rfl, rfl, rfl⟩

/-- Witness for `withdraw_insufficient_no_change`: withdrawing `250` from an
account holding `100`. -/
theorem withdraw_insufficient_no_change_witness :
    Transaction.withdraw sampleAccount 250 7 = sampleAccount ∧
    sampleAccount.withdraw 250 = sampleAccount ∧
    (Transaction.withdraw sampleAccount 250 7).balance = sampleAccount.balance ∧
    (Transaction.withdraw sampleAccount 250 7).transactionLog = sampleAccount.transactionLog ∧
    (sampleAccount.withdraw 250).balance = sampleAccount.balance ∧
    (sampleAccount.withdraw 250).transactionLog = sampleAccount.transactionLog :=
  withdraw_insufficient_no_change sampleAccount 250 7
    (by simp [sampleAccount, Account.new]; norm_num)

/-- C3: `Transaction::withdraw` appends the Withdraw record exactly when
`balance >= amount`; that is exactly the case in which the test
`amount > balance` of `Account::withdraw` is false, so the call then lowers the
balance by `amount` and appends the one record (account's number, Withdraw,
amount), and otherwise changes nothing.  The record and the debit always come
together. -/
theorem withdraw_logs_iff_debits (acc : Account) (amount : ℚ) (now : Nat) :
    ((Transaction.withdraw acc amount now).transactionLog =
        acc.transactionLog ++ [TransactionRecord.mk acc.accountNumber "Withdraw" amount now] ↔
      acc.balance ≥ amount) ∧
    (acc.balance ≥ amount ↔ ¬ (amount > acc.balance)) ∧
    acc.withdraw amount =
      (if acc.balance ≥ amount then { acc with balance := acc.balance - amount } else acc) ∧
    Transaction.withdraw acc amount now =
      (if acc.balance ≥ amount then
        { acc with
          balance := acc.balance - amount
          transactionLog := acc.transactionLog ++
            [TransactionRecord.mk acc.accountNumber "Withdraw" amount now] }
      else acc) := by
  by_cases h : amount ≤ acc.balance
  · have h2 : ¬ (acc.balance < amount) := not_lt.mpr h
    simp [Transaction.withdraw, Account.withdraw, Account.addTransactionRecord,
      Account.getBalance, Account.getAccountNumber, h, h2]
  · have h2 : acc.balance < amount := not_le.mp h
    simp [Transaction.withdraw, Account.withdraw, Account.getBalance, h, h2]

/-- C4: `Transaction::deposit(acc, amount)` succeeds for every amount, zero
and negative ones included: the new balance is the old balance plus `amount`,
the log is the old log followed by the one record (account's own number,
Deposit, amount), and nothing else changes. -/
theorem deposit_always_succeeds (acc : Account) (amount : ℚ) (now : Nat) :
    (Transaction.deposit acc amount now).balance = acc.balance + amount ∧
    (Transaction.deposit acc amount now).transactionLog =
      acc.transactionLog ++ [TransactionRecord.mk acc.accountNumber "Deposit" amount now] ∧
    Transaction.deposit acc amount now =
      { acc with
        balance := acc.balance + amount
        transactionLog := acc.transactionLog ++
          [TransactionRecord.mk acc.accountNumber "Deposit" amount now] } := by
  simp [Transaction.deposit, Account.deposit, Account.addTransactionRecord,
    Account.getAccountNumber]

end Transfers

/-! ## Sequences of calls: how the counters and the collections evolve -/

section Sequences

namespace Manager

lemma run_nil (m : Manager) : m.run [] = m := rfl

lemma run_cons (m : Manager) (op : Op) (ops : List Op) :
    m.run (op :: ops) = (m.step op).run ops := rfl

lemma run_append (m : Manager) (ops₁ ops₂ : List Op) :
    m.run (ops₁ ++ ops₂) = (m.run ops₁).run ops₂ := by
  simp [run, List.foldl_append]

lemma run_concat (m : Manager) (ops : List Op) (op : Op) :
    m.run (ops ++ [op]) = (m.run ops).step op := by
  simp [run, List.foldl_append]

lemma closeAccountLoop_sublist (accNo : Int) (username : String) (isManager : Bool)
    (l : List Account) : (closeAccountLoop accNo username isManager l).Sublist l := by
  induction l with
  | nil => exact List.Sublist.refl _
  | cons a rest ih =>
    unfold closeAccountLoop
    split
    · exact List.sublist_cons_self a rest
    · exact ih.cons₂ a

/-- The account counter after a run: its start value plus the number of
`createAccount` calls. -/
lemma run_nextAccNo (m : Manager) (ops : List Op) :
    (m.run ops).nextAccNo = m.nextAccNo + (Op.createCount ops : Int) := by
  induction ops generalizing m with
  | nil => simp [run_nil, Op.createCount]
  | cons op ops ih =>
    rw [run_cons, ih]
    cases op <;>
      (simp [step, createAccount, closeAccount, applyLoan, Op.createCount, List.countP_cons,
        Op.isCreateAccount]; try ring)

/-- The loan counter after a run: its start value plus the number of
`applyLoan` calls. -/
lemma run_nextLoanID (m : Manager) (ops : List Op) :
    (m.run ops).nextLoanID = m.nextLoanID + (Op.loanCount ops : Int) := by
  induction ops generalizing m with
  | nil => simp [run_nil, Op.loanCount]
  | cons op ops ih =>
    rw [run_cons, ih]
    cases op <;>
      (simp [step, createAccount, closeAccount, applyLoan, Op.loanCount, List.countP_cons,
        Op.isApplyLoan]; try ring)

lemma accountsOrdered_fresh : AccountsOrdered fresh := by
  simp [AccountsOrdered, fresh]

lemma accountsOrdered_step (m : Manager) (op : Op) (h : AccountsOrdered m) :
    AccountsOrdered (m.step op) := by
  obtain ⟨hs, hb, hn⟩ := h
  cases op with
  | createAccount name balance type owner =>
    refine ⟨?_, ?_, ?_⟩
    · simp only [step, createAccount, List.map_append, List.map_cons, List.map_nil,
        Account.new]
      rw [List.pairwise_append]
      refine ⟨hs, List.pairwise_singleton _ _, ?_⟩
      intro x hx y hy
      rw [List.mem_singleton] at hy
      obtain ⟨a, ha, rfl⟩ := List.mem_map.mp hx
      rw [hy]
      exact (hb a ha).2
    · intro a ha
      simp only [step, createAccount, List.mem_append, List.mem_singleton] at ha ⊢
      rcases ha with ha | ha
      · have := hb a ha
        exact ⟨this.1, by linarith [this.2]⟩
      · subst ha
        simp only [Account.new]
        exact ⟨hn, by linarith⟩
    · simp only [step, createAccount]
      linarith
  | closeAccount accNo username isManager =>
    have hsub := closeAccountLoop_sublist accNo username isManager m.accounts
    refine ⟨?_, ?_, hn⟩
    · exact List.Pairwise.sublist (hsub.map _) hs
    · intro a ha
      exact hb a (hsub.subset ha)
  | applyLoan name username principal tenure => exact ⟨hs, hb, hn⟩
  | findAccount _ _ _ => exact ⟨hs, hb, hn⟩
  | getUserAccounts _ => exact ⟨hs, hb, hn⟩
  | findLoan _ _ _ => exact ⟨hs, hb, hn⟩
  | getUserLoans _ => exact ⟨hs, hb, hn⟩

lemma accountsOrdered_run (m : Manager) (ops : List Op) (h : AccountsOrdered m) :
    AccountsOrdered (m.run ops) := by
  induction ops generalizing m with
  | nil => exact h
  | cons op ops ih => exact ih _ (accountsOrdered_step m op h)

lemma loansOrdered_fresh : LoansOrdered fresh := by
  simp [LoansOrdered, fresh]

lemma loansOrdered_step (m : Manager) (op : Op) (h : LoansOrdered m) :
    LoansOrdered (m.step op) := by
  obtain ⟨hs, hb, hn⟩ := h
  cases op with
  | applyLoan name username principal tenure =>
    refine ⟨?_, ?_, ?_⟩
    · simp only [step, applyLoan, List.map_append, List.map_cons, List.map_nil, Loan.new]
      rw [List.pairwise_append]
      refine ⟨hs, List.pairwise_singleton _ _, ?_⟩
      intro x hx y hy
      rw [List.mem_singleton] at hy
      obtain ⟨a, ha, rfl⟩ := List.mem_map.mp hx
      rw [hy]
      exact (hb a ha).2
    · intro a ha
      simp only [step, applyLoan, List.mem_append, List.mem_singleton] at ha ⊢
      rcases ha with ha | ha
      · have := hb a ha
        exact ⟨this.1, by linarith [this.2]⟩
      · subst ha
        simp only [Loan.new]
        exact ⟨hn, by linarith⟩
    · simp only [step, applyLoan]
      linarith
  | createAccount _ _ _ _ => exact ⟨hs, hb, hn⟩
  | closeAccount _ _ _ => exact ⟨hs, hb, hn⟩
  | findAccount _ _ _ => exact ⟨hs, hb, hn⟩
  | getUserAccounts _ => exact ⟨hs, hb, hn⟩
  | findLoan _ _ _ => exact ⟨hs, hb, hn⟩
  | getUserLoans _ => exact ⟨hs, hb, hn⟩

lemma loansOrdered_run (m : Manager) (ops : List Op) (h : LoansOrdered m) :
    LoansOrdered (m.run ops) := by
  induction ops generalizing m with
  | nil => exact h
  | cons op ops ih => exact ih _ (loansOrdered_step m op h)

lemma createdAccountNumber_eq (m : Manager) (name : String) (balance : ℚ)
    (type owner : String) :
    m.createdAccountNumber name balance type owner = some m.nextAccNo := by
  simp [createdAccountNumber, createAccount, Account.new, Account.getAccountNumber]

lemma createdLoanID_eq (m : Manager) (name username : String) (principal : ℚ) (tenure : Int) :
    m.createdLoanID name username principal tenure = some m.nextLoanID := by
  simp [createdLoanID, applyLoan, Loan.new, Loan.getLoanID]

end Manager

/-- C6: after any sequence `ops` of calls on a fresh Manager, a further
`createAccount` (the N-th one, where N - 1 is the number of `createAccount`
calls in `ops`, however many `closeAccount` calls lie between) appends an
account whose number is exactly `1000 + N`; and every later `createAccount`
issues a strictly larger number, so numbers are issued in strictly increasing
order and never repeated. -/
theorem createAccount_number_is_1000_plus_N (ops : List Op) (name : String) (balance : ℚ)
    (type owner : String) :
    ((Manager.fresh.run ops).createAccount name balance type owner).accounts =
      (Manager.fresh.run ops).accounts ++
        [Account.new (1000 + ((Op.createCount ops : Int) + 1)) name balance type owner] ∧
    (Manager.fresh.run ops).createdAccountNumber name balance type owner =
      some (1000 + ((Op.createCount ops : Int) + 1)) ∧
    ∀ (later : List Op) (name₂ : String) (balance₂ : ℚ) (type₂ owner₂ : String),
      ∃ k₁ k₂ : Int,
        (Manager.fresh.run ops).createdAccountNumber name balance type owner = some k₁ ∧
        (Manager.fresh.run (ops ++ Op.createAccount name balance type owner :: later)).createdAccountNumber
          name₂ balance₂ type₂ owner₂ = some k₂ ∧
        k₁ < k₂ := by
  have hn : (Manager.fresh.run ops).nextAccNo = 1000 + ((Op.createCount ops : Int) + 1) := by
    rw [Manager.run_nextAccNo]
    simp only [Manager.fresh]
    ring
  refine ⟨?_, ?_, ?_⟩
  · simp only [Manager.createAccount, hn]
  · rw [Manager.createdAccountNumber_eq, hn]
  · intro later name₂ balance₂ type₂ owner₂
    refine ⟨_, _, Manager.createdAccountNumber_eq _ _ _ _ _,
      Manager.createdAccountNumber_eq _ _ _ _ _, ?_⟩
    rw [Manager.run_nextAccNo, Manager.run_nextAccNo]
    have : Op.createCount (ops ++ Op.createAccount name balance type owner :: later) =
        Op.createCount ops + (Op.createCount later + 1) := by
      simp [Op.createCount, List.countP_append, List.countP_cons, Op.isCreateAccount]
    rw [this]
    push_cast
    have h0 : (0 : Int) ≤ (Op.createCount later : Int) := Int.natCast_nonneg _
    linarith

/-- C7: after any sequence `ops` of calls on a fresh Manager, a further
`applyLoan` (the N-th one, where N - 1 is the number of `applyLoan` calls in
`ops`) appends a loan whose `loanID` is exactly N; the IDs of the loans held by
the directory are strictly increasing in creation order, pairwise distinct, and
are exactly `1, 2, ..., N - 1`. -/
theorem applyLoan_id_is_N (ops : List Op) (name username : String) (principal : ℚ)
    (tenure : Int) :
    ((Manager.fresh.run ops).applyLoan name username principal tenure).loans =
      (Manager.fresh.run ops).loans ++
        [Loan.new ((Op.loanCount ops : Int) + 1) name username principal tenure 12] ∧
    (Manager.fresh.run ops).createdLoanID name username principal tenure =
      some ((Op.loanCount ops : Int) + 1) ∧
    ((Manager.fresh.run ops).loans.map Loan.loanID).Pairwise (· < ·) ∧
    ((Manager.fresh.run ops).loans.map Loan.loanID).Nodup ∧
    (Manager.fresh.run ops).loans.map Loan.loanID =
      (List.range (Op.loanCount ops)).map (fun i : Nat => (i : Int) + 1) := by
  have hn : (Manager.fresh.run ops).nextLoanID = (Op.loanCount ops : Int) + 1 := by
    rw [Manager.run_nextLoanID]
    simp only [Manager.fresh]
    ring
  have hord := Manager.loansOrdered_run Manager.fresh ops Manager.loansOrdered_fresh
  refine ⟨?_, ?_, hord.1, ?_, ?_⟩
  · simp only [Manager.applyLoan, hn]
  · rw [Manager.createdLoanID_eq, hn]
  · exact hord.1.imp (fun h => ne_of_lt h)
  · clear hn hord
    induction ops using List.reverseRecOn with
    | nil => simp [Manager.run_nil, Manager.fresh, Op.loanCount]
    | append_singleton ops op ih =>
      have hn : (Manager.fresh.run ops).nextLoanID = (Op.loanCount ops : Int) + 1 := by
        rw [Manager.run_nextLoanID]
        simp only [Manager.fresh]
        ring
      rw [Manager.run_concat]
      cases op with
      | applyLoan name username principal tenure =>
        have hc : Op.loanCount (ops ++ [Op.applyLoan name username principal tenure]) =
            Op.loanCount ops + 1 := by
          simp [Op.loanCount, List.countP_append, List.countP_cons, Op.isApplyLoan]
        rw [hc, List.range_succ]
        simp only [Manager.step, Manager.applyLoan, List.map_append, List.map_cons,
          List.map_nil, Loan.new, ih, hn]
      | createAccount _ _ _ _ =>
        simpa [Manager.step, Manager.createAccount, Op.loanCount, List.countP_append,
          List.countP_cons, Op.isApplyLoan] using ih
      | closeAccount _ _ _ =>
        simpa [Manager.step, Manager.closeAccount, Op.loanCount, List.countP_append,
          List.countP_cons, Op.isApplyLoan] using ih
      | findAccount _ _ _ =>
        simpa [Manager.step, Op.loanCount, List.countP_append, List.countP_cons,
          Op.isApplyLoan] using ih
      | getUserAccounts _ =>
        simpa [Manager.step, Op.loanCount, List.countP_append, List.countP_cons,
          Op.isApplyLoan] using ih
      | findLoan _ _ _ =>
        simpa [Manager.step, Op.loanCount, List.countP_append, List.countP_cons,
          Op.isApplyLoan] using ih
      | getUserLoans _ =>
        simpa [Manager.step, Op.loanCount, List.countP_append, List.countP_cons,
          Op.isApplyLoan] using ih

/-- C8: in every directory state reached from a fresh Manager by a sequence of
calls (`createAccount` and `closeAccount` among them), the accounts held are
stored in strictly increasing account-number order, their numbers are pairwise
distinct, and every account number `n` satisfies `1001 <= n < nextAccNo`. -/
theorem reachable_accounts_distinct_sorted_bounded (ops : List Op) :
    ((Manager.fresh.run ops).accounts.map Account.accountNumber).Pairwise (· < ·) ∧
    ((Manager.fresh.run ops).accounts.map Account.accountNumber).Nodup ∧
    ∀ a ∈ (Manager.fresh.run ops).accounts,
      1001 ≤ a.accountNumber ∧ a.accountNumber < (Manager.fresh.run ops).nextAccNo := by
  have hord := Manager.accountsOrdered_run Manager.fresh ops Manager.accountsOrdered_fresh
  exact ⟨hord.1, hord.1.imp (fun h => ne_of_lt h), hord.2.1⟩

end Sequences

/-! ## Ownership-scoped lookups -/

section Lookups

namespace Manager

lemma findAccountLoop_eq_find (accNo : Int) (username : String) (isManager : Bool)
    (l : List Account) :
    findAccountLoop accNo username isManager l =
      l.find? (fun a =>
        decide (a.accountNumber = accNo ∧ (isManager = true ∨ a.ownerUsername = username))) := by
  induction l with
  | nil => rfl
  | cons a rest ih =>
    unfold findAccountLoop
    by_cases h1 : a.accountNumber = accNo
    · by_cases h2 : isManager = true ∨ a.ownerUsername = username
      · simp [List.find?_cons, Account.getAccountNumber, Account.getOwnerUsername, h1, h2]
      · simp [List.find?_cons, Account.getAccountNumber, Account.getOwnerUsername, h1, h2, ih]
    · simp [List.find?_cons, Account.getAccountNumber, h1, ih]

lemma findLoanLoop_eq_find (loanID : Int) (username : String) (isManager : Bool)
    (l : List Loan) :
    findLoanLoop loanID username isManager l =
      l.find? (fun x =>
        decide (x.loanID = loanID ∧ (isManager = true ∨ x.borrowerUsername = username))) := by
  induction l with
  | nil => rfl
  | cons a rest ih =>
    unfold findLoanLoop
    by_cases h1 : a.loanID = loanID
    · by_cases h2 : isManager = true ∨ a.borrowerUsername = username
      · simp [List.find?_cons, Loan.getLoanID, Loan.getBorrowerUsername, h1, h2]
      · simp [List.find?_cons, Loan.getLoanID, Loan.getBorrowerUsername, h1, h2, ih]
    · simp [List.find?_cons, Loan.getLoanID, h1, ih]

lemma getUserLoansLoop_eq_filter (username : String) (l result : List Loan) :
    getUserLoansLoop username l result =
      result ++ l.filter (fun x => decide (x.borrowerUsername = username)) := by
  induction l generalizing result with
  | nil => simp [getUserLoansLoop]
  | cons a rest ih =>
    unfold getUserLoansLoop
    by_cases h : a.borrowerUsername = username
    · simp [Loan.getBorrowerUsername, h, ih, List.filter_cons]
    · simp [Loan.getBorrowerUsername, h, ih, List.filter_cons]

end Manager

/-- C9: `Manager::findAccount(n, u, isManager)` returns an account exactly when
the directory holds an account numbered `n` for which `isManager` is true or
`ownerUsername == u`; the account returned is the first such account of the
list and has number `n`.  In particular a non-manager caller who owns no
account numbered `n` gets no result, while with `isManager = true` the same
caller gets one as soon as an account numbered `n` exists. -/
theorem findAccount_returns_first_authorised (m : Manager) (n : Int) (u : String)
    (isManager : Bool) :
    ((m.findAccount n u isManager).isSome = true ↔
      ∃ a ∈ m.accounts, a.accountNumber = n ∧ (isManager = true ∨ a.ownerUsername = u)) ∧
    m.findAccount n u isManager =
      m.accounts.find? (fun a =>
        decide (a.accountNumber = n ∧ (isManager = true ∨ a.ownerUsername = u))) ∧
    (∀ a, m.findAccount n u isManager = some a →
      a.accountNumber = n ∧ (isManager = true ∨ a.ownerUsername = u) ∧
      ∃ pre post, m.accounts = pre ++ a :: post ∧
        ∀ b ∈ pre, ¬ (b.accountNumber = n ∧ (isManager = true ∨ b.ownerUsername = u))) ∧
    ((∀ a ∈ m.accounts, a.accountNumber = n → a.ownerUsername ≠ u) →
      m.findAccount n u false = none) ∧
    ((∃ a ∈ m.accounts, a.accountNumber = n) → (m.findAccount n u true).isSome = true) := by
  refine ⟨?_, ?_, ?_, ?_, ?_⟩
  · rw [Manager.findAccount, Manager.findAccountLoop_eq_find, List.find?_isSome]
    simp
  · rw [Manager.findAccount, Manager.findAccountLoop_eq_find]
  · intro a ha
    rw [Manager.findAccount, Manager.findAccountLoop_eq_find, List.find?_eq_some] at ha
    obtain ⟨hp, pre, post, hsplit, hpre⟩ := ha
    have hp2 := of_decide_eq_true hp
    refine ⟨hp2.1, hp2.2, pre, post, hsplit, ?_⟩
    intro b hb hcontra
    have := hpre b hb
    simp [hcontra.1, hcontra.2] at this
  · intro hown
    rw [Manager.findAccount, Manager.findAccountLoop_eq_find, List.find?_eq_none]
    intro a ha
    simp only [decide_eq_true_eq, not_and]
    intro hnum hor
    rcases hor with hf | ho
    · exact absurd hf (by decide)
    · exact hown a ha hnum ho
  · rintro ⟨a, ha, hnum⟩
    rw [Manager.findAccount, Manager.findAccountLoop_eq_find, List.find?_isSome]
    exact ⟨a, ha, by simp [hnum]⟩

/-- C10: `Manager::findLoan(i, u, isManager)` returns a loan exactly when the
directory holds a loan with `loanID` `i` for which `isManager` is true or
`borrowerUsername == u` (and then it is the first such loan); and
`Manager::getUserLoans(u)` is the loan list filtered by `borrowerUsername == u`:
exactly the loans of `u`, in directory insertion order. -/
theorem findLoan_and_getUserLoans_scoped (m : Manager) (i : Int) (u : String)
    (isManager : Bool) :
    ((m.findLoan i u isManager).isSome = true ↔
      ∃ x ∈ m.loans, x.loanID = i ∧ (isManager = true ∨ x.borrowerUsername = u)) ∧
    m.findLoan i u isManager =
      m.loans.find? (fun x =>
        decide (x.loanID = i ∧ (isManager = true ∨ x.borrowerUsername = u))) ∧
    m.getUserLoans u = m.loans.filter (fun x => decide (x.borrowerUsername = u)) ∧
    (∀ x, x ∈ m.getUserLoans u ↔ x ∈ m.loans ∧ x.borrowerUsername = u) ∧
    (m.getUserLoans u).Sublist m.loans := by
  have hf : m.getUserLoans u = m.loans.filter (fun x => decide (x.borrowerUsername = u)) := by
    rw [Manager.getUserLoans, Manager.getUserLoansLoop_eq_filter, List.nil_append]
  refine ⟨?_, ?_, hf, ?_, ?_⟩
  · rw [Manager.findLoan, Manager.findLoanLoop_eq_find, List.find?_isSome]
    simp
  · rw [Manager.findLoan, Manager.findLoanLoop_eq_find]
  · intro x
    rw [hf, List.mem_filter]
    simp
  · rw [hf]
    exact List.filter_sublist _

end Lookups

/-! ## Closing and creating accounts -/

section Accounts

namespace Manager

lemma getUserAccountsLoop_eq_filter (username : String) (l result : List Account) :
    getUserAccountsLoop username l result =
      result ++ l.filter (fun a => decide (a.ownerUsername = username)) := by
  induction l generalizing result with
  | nil => simp [getUserAccountsLoop]
  | cons a rest ih =>
    unfold getUserAccountsLoop
    by_cases h : a.ownerUsername = username
    · simp [Account.getOwnerUsername, h, ih, List.filter_cons]
    · simp [Account.getOwnerUsername, h, ih, List.filter_cons]

lemma getUserAccounts_eq_filter (m : Manager) (username : String) :
    m.getUserAccounts username =
      m.accounts.filter (fun a => decide (a.ownerUsername = username)) := by
  rw [getUserAccounts, getUserAccountsLoop_eq_filter, List.nil_append]

/-- The loop of `closeAccount` on a list that holds a match: the list splits
around the first match, which is the one element erased. -/
lemma closeAccountLoop_split (accNo : Int) (username : String) (isManager : Bool)
    (l : List Account)
    (h : ∃ b ∈ l, b.accountNumber = accNo ∧ (isManager = true ∨ b.ownerUsername = username)) :
    ∃ pre a post, l = pre ++ a :: post ∧
      (a.accountNumber = accNo ∧ (isManager = true ∨ a.ownerUsername = username)) ∧
      (∀ b ∈ pre,
        ¬ (b.accountNumber = accNo ∧ (isManager = true ∨ b.ownerUsername = username))) ∧
      closeAccountLoop accNo username isManager l = pre ++ post := by
  induction l with
  | nil =>
    obtain ⟨b, hb, _⟩ := h
    exact absurd hb (List.not_mem_nil b)
  | cons c rest ih =>
    by_cases hc : c.accountNumber = accNo ∧ (isManager = true ∨ c.ownerUsername = username)
    · refine ⟨[], c, rest, rfl, hc, ?_, ?_⟩
      · intro b hb
        exact absurd hb (List.not_mem_nil b)
      · unfold closeAccountLoop
        simp [Account.getAccountNumber, Account.getOwnerUsername, hc]
    · have hrest : ∃ b ∈ rest,
          b.accountNumber = accNo ∧ (isManager = true ∨ b.ownerUsername = username) := by
        obtain ⟨b, hb, hm⟩ := h
        rcases List.mem_cons.mp hb with rfl | hb
        · exact absurd hm hc
        · exact ⟨b, hb, hm⟩
      obtain ⟨pre, a, post, hsplit, ha, hpre, hclose⟩ := ih hrest
      refine ⟨c :: pre, a, post, by rw [hsplit]; rfl, ha, ?_, ?_⟩
      · intro b hb
        rcases List.mem_cons.mp hb with rfl | hb
        · exact hc
        · exact hpre b hb
      · rw [closeAccountLoop]
        simp only [Account.getAccountNumber, Account.getOwnerUsername, hc, if_false]
        rw [hclose]
        rfl

end Manager

/-- C11: in every directory state reached from a fresh Manager by a sequence
of calls, when `closeAccount(n, u, isManager)` finds an authorised match it
removes exactly one account, the first account numbered `n` that the caller is
authorised for (the one `findAccount` returns), leaving all other accounts and
their order, the loans, the counters and the global log as they were; and
afterwards `findAccount(n, u2, m2)` returns no result for every caller `u2` and
every flag `m2`, managers included. -/
theorem closeAccount_removes_first_match (ops : List Op) (n : Int) (u : String)
    (isManager : Bool)
    (hmatch : ∃ b ∈ (Manager.fresh.run ops).accounts,
      b.accountNumber = n ∧ (isManager = true ∨ b.ownerUsername = u)) :
    ∃ pre a post,
      (Manager.fresh.run ops).accounts = pre ++ a :: post ∧
      (a.accountNumber = n ∧ (isManager = true ∨ a.ownerUsername = u)) ∧
      (∀ b ∈ pre, ¬ (b.accountNumber = n ∧ (isManager = true ∨ b.ownerUsername = u))) ∧
      (Manager.fresh.run ops).findAccount n u isManager = some a ∧
      ((Manager.fresh.run ops).closeAccount n u isManager).accounts = pre ++ post ∧
      ((Manager.fresh.run ops).closeAccount n u isManager).accounts.length + 1 =
        (Manager.fresh.run ops).accounts.length ∧
      ((Manager.fresh.run ops).closeAccount n u isManager).loans =
        (Manager.fresh.run ops).loans ∧
      ((Manager.fresh.run ops).closeAccount n u isManager).nextAccNo =
        (Manager.fresh.run ops).nextAccNo ∧
      ((Manager.fresh.run ops).closeAccount n u isManager).nextLoanID =
        (Manager.fresh.run ops).nextLoanID ∧
      ((Manager.fresh.run ops).closeAccount n u isManager).transactions =
        (Manager.fresh.run ops).transactions ∧
      ∀ (u₂ : String) (m₂ : Bool),
        ((Manager.fresh.run ops).closeAccount n u isManager).findAccount n u₂ m₂ = none := by
  obtain ⟨pre, a, post, hsplit, ha, hpre, hclose⟩ :=
    Manager.closeAccountLoop_split n u isManager _ hmatch
  have hord := (Manager.accountsOrdered_run Manager.fresh ops Manager.accountsOrdered_fresh).1
  rw [hsplit, List.map_append, List.map_cons, List.pairwise_append] at hord
  obtain ⟨_, hpost, hcross⟩ := hord
  have hpost2 := (List.pairwise_cons.mp hpost).1
  refine ⟨pre, a, post, hsplit, ha, hpre, ?_, hclose, ?_, rfl, rfl, rfl, rfl, ?_⟩
  · rw [Manager.findAccount, Manager.findAccountLoop_eq_find, List.find?_eq_some]
    refine ⟨decide_eq_true ha, pre, post, hsplit, ?_⟩
    intro b hb
    simp only [Bool.not_eq_true', decide_eq_false_iff_not]
    exact hpre b hb
  · simp only [Manager.closeAccount]
    rw [hclose, hsplit]
    simp only [List.length_append, List.length_cons]
    omega
  · intro u₂ m₂
    rw [Manager.findAccount, Manager.findAccountLoop_eq_find, List.find?_eq_none]
    intro b hb
    simp only [Manager.closeAccount, hclose, List.mem_append] at hb
    have hne : b.accountNumber ≠ n := by
      rcases hb with hb | hb
      · have := hcross _ (List.mem_map_of_mem _ hb) _ (List.mem_cons_self _ _)
        rw [ha.1] at this
        exact ne_of_lt this
      · have := hpost2 _ (List.mem_map_of_mem _ hb)
        rw [ha.1] at this
        exact ne_of_gt this
    simp [hne]

/-- Witness for `closeAccount_removes_first_match`: the owner closes the single
account of a directory built by one `createAccount` call. -/
theorem closeAccount_removes_first_match_witness :
    ∃ pre a post,
      (Manager.fresh.run [Op.createAccount "Asha" 100 "Saving" "asha"]).accounts =
        pre ++ a :: post ∧
      ((Manager.fresh.run [Op.createAccount "Asha" 100 "Saving" "asha"]).closeAccount
        1001 "asha" false).accounts = pre ++ post ∧
      ∀ (u₂ : String) (m₂ : Bool),
        ((Manager.fresh.run [Op.createAccount "Asha" 100 "Saving" "asha"]).closeAccount
          1001 "asha" false).findAccount 1001 u₂ m₂ = none :=
  have h := closeAccount_removes_first_match [Op.createAccount "Asha" 100 "Saving" "asha"]
    1001 "asha" false
    ⟨Account.new 1001 "Asha" 100 "Saving" "asha",
      by simp [Manager.run, Manager.step, Manager.createAccount, Manager.fresh],
      by simp [Account.new]⟩
  match h with
  | ⟨pre, a, post, h1, _, _, _, h5, _, _, _, _, _, h11⟩ => ⟨pre, a, post, h1, h5, h11⟩

/-- C12: for every directory, after `createAccount(name, b, t, o)` the result
of `getUserAccounts(o)` is the earlier result followed by the new account, so
its last element has the number just issued (the pre-call `nextAccNo`), balance
exactly `b`, account type `t`, owner `o` and an empty transaction log. -/
theorem createAccount_then_getUserAccounts (m : Manager) (name : String) (b : ℚ)
    (t o : String) :
    (m.createAccount name b t o).getUserAccounts o =
      m.getUserAccounts o ++ [Account.new m.nextAccNo name b t o] ∧
    ((m.createAccount name b t o).getUserAccounts o).getLast? =
      some (Account.new m.nextAccNo name b t o) ∧
    (Account.new m.nextAccNo name b t o).accountNumber = m.nextAccNo ∧
    (Account.new m.nextAccNo name b t o).balance = b ∧
    (Account.new m.nextAccNo name b t o).accountType = t ∧
    (Account.new m.nextAccNo name b t o).ownerUsername = o ∧
    (Account.new m.nextAccNo name b t o).transactionLog = [] := by
  have h : (m.createAccount name b t o).getUserAccounts o =
      m.getUserAccounts o ++ [Account.new m.nextAccNo name b t o] := by
    rw [Manager.getUserAccounts_eq_filter, Manager.getUserAccounts_eq_filter]
    simp [Manager.createAccount, List.filter_append, List.filter_cons, Account.new]
  refine ⟨h, ?_, rfl, rfl, rfl, rfl, rfl⟩
  rw [h, List.getLast?_concat]

/-- C13: `Manager::getUserAccounts(u)` is the account list of the directory
filtered by `ownerUsername == u`: it holds every account owned by `u` and no
other, each as often as the directory holds it, in directory insertion
order. -/
theorem getUserAccounts_is_owner_filter (m : Manager) (u : String) :
    m.getUserAccounts u = m.accounts.filter (fun a => decide (a.ownerUsername = u)) ∧
    (∀ a, a ∈ m.getUserAccounts u ↔ a ∈ m.accounts ∧ a.ownerUsername = u) ∧
    (∀ a, a.ownerUsername = u → (m.getUserAccounts u).count a = m.accounts.count a) ∧
    (∀ a, a.ownerUsername ≠ u → (m.getUserAccounts u).count a = 0) ∧
    (m.getUserAccounts u).Sublist m.accounts := by
  have hf := Manager.getUserAccounts_eq_filter m u
  refine ⟨hf, ?_, ?_, ?_, ?_⟩
  · intro a
    rw [hf, List.mem_filter]
    simp
  · intro a ha
    rw [hf, List.count_filter]
    simp [ha]
  · intro a ha
    rw [hf, List.count_eq_zero]
    intro hmem
    exact ha (by simpa using (List.mem_filter.mp hmem).2)
  · rw [hf]
    exact List.filter_sublist _

end Accounts

/-! ## The transaction log of an account -/

section Log

/-- C18: the transaction log of an account is append-only.  For each of
`Account::deposit`, `Account::withdraw`, `Account::addTransactionRecord`,
`Account::modifyAccount`, `Transaction::deposit` and `Transaction::withdraw`,
and every input, the log before the call is a prefix of the log after it; and
`addTransactionRecord` appends its argument whatever account number the record
carries. -/
theorem transactionLog_append_only (acc : Account) (amount : ℚ) (record : TransactionRecord)
    (newName newType : String) (now : Nat) :
    acc.transactionLog <+: (acc.deposit amount).transactionLog ∧
    acc.transactionLog <+: (acc.withdraw amount).transactionLog ∧
    acc.transactionLog <+: (acc.addTransactionRecord record).transactionLog ∧
    acc.transactionLog <+: (acc.modifyAccount newName newType).transactionLog ∧
    acc.transactionLog <+: (Transaction.deposit acc amount now).transactionLog ∧
    acc.transactionLog <+: (Transaction.withdraw acc amount now).transactionLog ∧
    (acc.addTransactionRecord record).transactionLog = acc.transactionLog ++ [record] := by
  refine ⟨?_, ?_, ?_, ?_, ?_, ?_, rfl⟩
  · exact List.prefix_refl _
  · unfold Account.withdraw
    split
    · exact List.prefix_refl _
    · exact List.prefix_refl _
  · exact List.prefix_append _ _
  · exact List.prefix_refl _
  · exact List.prefix_append _ _
  · unfold Transaction.withdraw
    split
    · unfold Account.withdraw
      split
      · exact List.prefix_append _ _
      · exact List.prefix_append _ _
    · exact List.prefix_refl _

end Log

/-! ## Loans: the EMI computation and payments -/

section Loans

lemma roundToCents_eq_of_bounds (x : ℚ) (k : Int) (h₁ : (k : ℚ) - 1 / 2 ≤ x * 100)
    (h₂ : x * 100 < (k : ℚ) + 1 / 2) : roundToCents x = (k : ℚ) / 100 := by
  have hk : round (x * 100) = k := by
    rw [round_eq, Int.floor_eq_iff]
    constructor <;> linarith
  rw [roundToCents, hk]

lemma loan_new_reference (id : Int) (name username : String) :
    (Loan.new id name username 100000 1 12).emi =
      1126825030131969720661201000 / 126825030131969720661201 ∧
    (Loan.new id name username 100000 1 12).balance =
      1126825030131969720661201000 / 126825030131969720661201 * 12 := by
  simp only [Loan.new, Loan.computeEmi, Loan.emiDenominator, Loan.monthlyRate]
  norm_num

lemma smallLoan_balance : smallLoan.balance = 100 := by
  norm_num [smallLoan, Loan.makePayment]

/-- C14: for a loan constructed with principal `100000`, tenure one year (12
months) and rate `12` percent (monthly rate `0.01`), the monthly EMI computed by
the constructor in exact arithmetic, rounded to two decimals, is `8884.88`. -/
theorem emi_reference_rounds_to_8884_88 (id : Int) (name username : String) :
    Loan.monthlyRate 12 = 1 / 100 ∧
    (Loan.new id name username 100000 1 12).tenure = 12 ∧
    roundToCents (Loan.new id name username 100000 1 12).emi = 8884.88 ∧
    (8884.875 : ℚ) ≤ (Loan.new id name username 100000 1 12).emi ∧
    (Loan.new id name username 100000 1 12).emi < 8884.885 := by
  have h := (loan_new_reference id name username).1
  refine ⟨by norm_num [Loan.monthlyRate], by norm_num [Loan.new], ?_, ?_, ?_⟩
  · rw [roundToCents_eq_of_bounds _ 888488 (by rw [h]; norm_num) (by rw [h]; norm_num)]
    norm_num
  · rw [h]; norm_num
  · rw [h]; norm_num

/-- C15 (as stated, refuted): for the loan of `100000` over one year at `12`
percent, the outstanding balance at creation (unrounded EMI times 12) lies
strictly between `106618.545` and `106618.555`, so rounded to two decimals it
is `106618.55` and not `106618.56`. -/
theorem reference_balance_is_not_106618_56 :
    sampleLoan.balance = sampleLoan.emi * 12 ∧
    (106618.545 : ℚ) < sampleLoan.balance ∧
    sampleLoan.balance < 106618.555 ∧
    roundToCents sampleLoan.balance ≠ 106618.56 := by
  have h := loan_new_reference 1 "Asha" "asha"
  have hb : sampleLoan.balance =
      1126825030131969720661201000 / 126825030131969720661201 * 12 := h.2
  have he : sampleLoan.emi = 1126825030131969720661201000 / 126825030131969720661201 := h.1
  refine ⟨by rw [hb, he], by rw [hb]; norm_num, by rw [hb]; norm_num, ?_⟩
  rw [roundToCents_eq_of_bounds _ 10661855 (by rw [hb]; norm_num) (by rw [hb]; norm_num)]
  norm_num

/-- C15 (amended): for a loan constructed with principal `100000`, tenure one
year (12 months) and rate `12` percent, the outstanding balance at creation is
the unrounded EMI multiplied by 12, and in exact arithmetic, rounded to two
decimals, it is `106618.55`. -/
theorem reference_balance_rounds_to_106618_55 (id : Int) (name username : String) :
    (Loan.new id name username 100000 1 12).balance =
      (Loan.new id name username 100000 1 12).emi * 12 ∧
    roundToCents (Loan.new id name username 100000 1 12).balance = 106618.55 ∧
    (106618.545 : ℚ) ≤ (Loan.new id name username 100000 1 12).balance ∧
    (Loan.new id name username 100000 1 12).balance < 106618.555 := by
  have h := loan_new_reference id name username
  refine ⟨by rw [h.2, h.1], ?_, by rw [h.2]; norm_num, by rw [h.2]; norm_num⟩
  rw [roundToCents_eq_of_bounds _ 10661855 (by rw [h.2]; norm_num) (by rw [h.2]; norm_num)]
  norm_num

/-- C16: for every loan and every amount with `amount >= outstandingBalance`,
`Loan::makePayment(amount)` sets the outstanding balance to exactly `0`,
however large the overpayment, and changes no other field of the loan. -/
theorem makePayment_full_clears_balance (loan : Loan) (amount : ℚ)
    (h : amount ≥ loan.balance) :
    (loan.makePayment amount).balance = 0 ∧
    loan.makePayment amount = { loan with balance := 0 } ∧
    (loan.makePayment amount).loanID = loan.loanID ∧
    (loan.makePayment amount).borrowerName = loan.borrowerName ∧
    (loan.makePayment amount).borrowerUsername = loan.borrowerUsername ∧
    (loan.makePayment amount).principal = loan.principal ∧
    (loan.makePayment amount).rate = loan.rate ∧
    (loan.makePayment amount).tenure = loan.tenure ∧
    (loan.makePayment amount).emi = loan.emi := by
  have e : loan.makePayment amount = { loan with balance := 0 } := by
    unfold Loan.makePayment
    rw [if_pos h]
  rw [e]
  exact ⟨rfl, rfl, rfl, rfl, rfl, rfl, rfl, rfl, rfl⟩

/-- Witness for `makePayment_full_clears_balance`: paying `500` on a loan with
`100` outstanding. -/
theorem makePayment_full_clears_balance_witness :
    (smallLoan.makePayment 500).balance = 0 ∧
    smallLoan.makePayment 500 = { smallLoan with balance := 0 } :=
  have hb : smallLoan.balance = 100 := smallLoan_balance
  have h := makePayment_full_clears_balance smallLoan 500 (by rw [hb]; norm_num)
  ⟨h.1, h.2.1⟩

end Loans

/-! ## Refused calls -/

section Refused

namespace Manager

/-- The loop of `closeAccount` on a list without a match returns the list. -/
lemma closeAccountLoop_of_no_match (accNo : Int) (username : String) (isManager : Bool)
    (l : List Account)
    (h : ∀ b ∈ l,
      ¬ (b.accountNumber = accNo ∧ (isManager = true ∨ b.ownerUsername = username))) :
    closeAccountLoop accNo username isManager l = l := by
  induction l with
  | nil => rfl
  | cons c rest ih =>
    have hc := h c (List.mem_cons_self c rest)
    have hrest := ih (fun b hb => h b (List.mem_cons_of_mem c hb))
    rw [closeAccountLoop]
    simp only [Account.getAccountNumber, Account.getOwnerUsername, hc, if_false]
    rw [hrest]

end Manager

/-- C21: for every directory, account number `n`, username `u` and flag
`isManager` such that no account numbered `n` is authorised for the caller
(there is none, or `isManager` is false and none numbered `n` is owned by `u`),
`Manager::closeAccount(n, u, isManager)` leaves the directory unchanged: the
account list, the loan list, both ID counters and the global transaction log
are the same before and after. -/
theorem closeAccount_without_match_is_identity (m : Manager) (n : Int) (u : String)
    (isManager : Bool)
    (hnone : ¬ ∃ b ∈ m.accounts,
      b.accountNumber = n ∧ (isManager = true ∨ b.ownerUsername = u)) :
    m.closeAccount n u isManager = m ∧
    (m.closeAccount n u isManager).accounts = m.accounts ∧
    (m.closeAccount n u isManager).loans = m.loans ∧
    (m.closeAccount n u isManager).nextAccNo = m.nextAccNo ∧
    (m.closeAccount n u isManager).nextLoanID = m.nextLoanID ∧
    (m.closeAccount n u isManager).transactions = m.transactions ∧
    m.findAccount n u isManager = none := by
  have hall : ∀ b ∈ m.accounts,
      ¬ (b.accountNumber = n ∧ (isManager = true ∨ b.ownerUsername = u)) :=
    fun b hb hm => hnone ⟨b, hb, hm⟩
  have hacc : (m.closeAccount n u isManager).accounts = m.accounts := by
    simp only [Manager.closeAccount]
    exact Manager.closeAccountLoop_of_no_match n u isManager m.accounts hall
  have heq : m.closeAccount n u isManager = m := by
    cases m
    simp only [Manager.closeAccount] at hacc ⊢
    rw [hacc]
  refine ⟨heq, hacc, rfl, rfl, rfl, rfl, ?_⟩
  rw [Manager.findAccount, Manager.findAccountLoop_eq_find, List.find?_eq_none]
  intro b hb
  simpa using hall b hb

/-- Witness for `closeAccount_without_match_is_identity`: a non-manager who
does not own account `1001` asks to close it. -/
theorem closeAccount_without_match_is_identity_witness :
    sampleManager.closeAccount 1001 "ravi" false = sampleManager ∧
    sampleManager.findAccount 1001 "ravi" false = none :=
  have h := closeAccount_without_match_is_identity sampleManager 1001 "ravi" false
    (by simp [sampleManager, Manager.createAccount, Manager.fresh, Account.new])
  ⟨h.1, h.2.2.2.2.2.2⟩

/-- C22: for every account with balance `>= 0` and every amount (positive,
zero or negative), the balance after `Transaction::withdraw(acc, amount)` is
still `>= 0`: a withdrawal never overdraws an account whose balance was
non-negative. -/
theorem withdraw_keeps_balance_nonneg (acc : Account) (amount : ℚ) (now : Nat)
    (hbal : 0 ≤ acc.balance) :
    0 ≤ (Transaction.withdraw acc amount now).balance := by
  unfold Transaction.withdraw
  by_cases h : acc.getBalance ≥ amount
  · rw [if_pos h]
    have h1 : amount ≤ acc.balance := h
    have h2 : ¬ (amount > acc.balance) := not_lt.mpr h1
    simp only [Account.addTransactionRecord, Account.withdraw, if_neg h2]
    linarith
  · rw [if_neg h]
    exact hbal

/-- Witness for `withdraw_keeps_balance_nonneg`: withdrawing `-40` from an
account holding `100`. -/
theorem withdraw_keeps_balance_nonneg_witness :
    0 ≤ (Transaction.withdraw sampleAccount (-40) 5).balance :=
  withdraw_keeps_balance_nonneg sampleAccount (-40) 5
    (by simp [sampleAccount, Account.new])

end Refused

end WiseVault
